import Mathlib

/-!
Verification development for the reservation ledger and offer-invalidation
subsystem of a cluster resource manager.  The repository snapshot contains the
endpoint tests (src/tests/reservation_endpoints_tests.cpp) but not the
Resource Algebra, Agent Ledger, Offer Tracker, Authorization Gate or
Reservation Operation Processor sources themselves, so those components are
modelled here from the specification (spec.md sections 3, 4 and 7) and the
behaviour exercised by the tests.
-/

namespace MesosSpec

/-- Modelled from the spec: the value part of a resource quantity.  The spec
describes it as a tagged value: scalar (a real number, modelled as a
rational), range-set (disjoint integer intervals, modelled by the finite list
of integers they cover), or discrete set (strings).  The Resource Algebra
source is missing from the snapshot; only its tests are present. -/
inductive Value where
  | scalar (q : ℚ)
  | ranges (xs : List ℤ)
  | items (xs : List String)
deriving DecidableEq

/-- Modelled from the spec: a reservation tag identifying who reserved a
quantity. -/
structure ReservationInfo where
  principal : String
deriving DecidableEq

/-- Modelled from the spec: a resource quantity always carries a name, a role
and an optional reservation tag. -/
structure Resource where
  name : String
  role : String
  reservation : Option ReservationInfo
  value : Value
deriving DecidableEq

abbrev Resources := List Resource

/-- Default role carried by unreserved resources. -/
def defaultRole : String := "*"

/-- Stamp a role and reservation tag onto a single resource. -/
def Resource.flatten (r : Resource) (role : String)
    (tag : Option ReservationInfo) : Resource :=
  { r with role := role, reservation := tag }

/-- Modelled from the spec: flatten stamps role plus reservation tag onto a
quantity (reserve direction). -/
def Resources.flatten (rs : Resources) (role : String)
    (tag : Option ReservationInfo) : Resources :=
  rs.map (fun r => r.flatten role tag)

/-- Modelled from the spec: unflatten strips role and tag back to the
defaults (unreserve direction). -/
def Resources.unflatten (rs : Resources) : Resources :=
  Resources.flatten rs defaultRole none

/-- A resource list is unreserved when every element carries the default role
and no reservation tag. -/
def Resources.allUnreserved (rs : Resources) : Bool :=
  rs.all (fun r => r.role == defaultRole && r.reservation == none)

/-- Remove one occurrence of an element from a list, failing if it is
absent. -/
def removeOne {α : Type} [DecidableEq α] (x : α) : List α → Option (List α)
  | [] => none
  | y :: ys => if x = y then some ys else (removeOne x ys).map (fun zs => y :: zs)

/-- Remove every element of the first list, one occurrence each, from the
second list. -/
def removeAll {α : Type} [DecidableEq α] : List α → List α → Option (List α)
  | [], target => some target
  | x :: xs, target => (removeOne x target).bind (removeAll xs)

/-- Modelled from the spec: addition of two values of the same kind. -/
def Value.add : Value → Value → Option Value
  | .scalar p, .scalar q => some (.scalar (p + q))
  | .ranges xs, .ranges ys => some (.ranges (xs ++ ys))
  | .items xs, .items ys => some (.items (xs ++ ys))
  | _, _ => none

/-- Modelled from the spec: subtraction of values; a scalar quantity may
never go negative (subtracting a non-contained quantity fails, the
QuantityUnderflow condition), ranges and sets subtract by removing covered
elements. -/
def Value.sub : Value → Value → Option Value
  | .scalar p, .scalar q => if q ≤ p then some (.scalar (p - q)) else none
  | .ranges xs, .ranges ys => (removeAll ys xs).map .ranges
  | .items xs, .items ys => (removeAll ys xs).map .items
  | _, _ => none

/-- An empty value. -/
def Value.isZero : Value → Bool
  | .scalar q => q == 0
  | .ranges xs => xs.isEmpty
  | .items xs => xs.isEmpty

/-- Numeric measure of a value: the scalar amount, or the number of covered
elements of a range-set or discrete set. -/
def Value.measure : Value → ℚ
  | .scalar q => q
  | .ranges xs => xs.length
  | .items xs => xs.length

/-- Modelled from the spec: matching for containment and sufficiency treats
the (name, role, reservation tag) triple as the identity key. -/
def Resource.sameKey (a b : Resource) : Bool :=
  a.name == b.name && a.role == b.role && a.reservation == b.reservation

/-- Merge one resource into an accumulated list, adding into an existing
entry with the same identity key when the value kinds agree. -/
def Resources.addOne : Resources → Resource → Resources
  | [], r => [r]
  | x :: xs, r =>
    if x.sameKey r then
      match Value.add x.value r.value with
      | some v => { x with value := v } :: xs
      | none => x :: Resources.addOne xs r
    else
      x :: Resources.addOne xs r

/-- Modelled from the spec: addition of resource quantity lists, merging by
the identity key. -/
def Resources.add : Resources → Resources → Resources
  | a, [] => a
  | a, r :: rs => Resources.add (Resources.addOne a r) rs

/-- Subtract a single resource from a list: the first entry with the same
identity key whose value covers it loses that amount; emptied entries are
dropped. -/
def Resources.subOne : Resources → Resource → Option Resources
  | [], _ => none
  | x :: xs, r =>
    if x.sameKey r then
      match Value.sub x.value r.value with
      | some v => some (if v.isZero then xs else { x with value := v } :: xs)
      | none => (Resources.subOne xs r).map (fun ys => x :: ys)
    else
      (Resources.subOne xs r).map (fun ys => x :: ys)

/-- Modelled from the spec: subtraction of resource lists; it fails (the
QuantityUnderflow condition) when the second list is not contained in the
first. -/
def Resources.subtract : Resources → Resources → Option Resources
  | a, [] => some a
  | a, r :: rs => (Resources.subOne a r).bind (fun c => Resources.subtract c rs)

/-- Modelled from the spec: containment; is `b` a sub-multiset of `a`,
matching by (name, role, reservation tag) with scalar greater-or-equal and
range/set superset. -/
def Resources.containsAll (a b : Resources) : Bool :=
  (Resources.subtract a b).isSome

/-- Total numeric quantity carried under a given resource name, ignoring
role and reservation metadata (the spec: a reservation tag is metadata on a
quantity, not a separate pool). -/
def Resources.quantity (rs : Resources) (n : String) : ℚ :=
  (rs.map (fun r => if r.name = n then r.value.measure else 0)).sum

/-- Modelled from the spec: an offer is an immutable snapshot of offer id,
framework id, agent id, resources and creation time. -/
structure Offer where
  offerId : ℕ
  frameworkId : ℕ
  agentId : ℕ
  resources : Resources
  createdAt : ℕ
deriving DecidableEq

/-- Modelled from the spec: the per-agent ledger holds `total`, `offered`
(partitioned by offer identifier) and `allocated`.  The spec derives `free`
rather than storing it; the model carries the `free` pool explicitly so that
the reservation tags of idle resources can be tracked, and the conservation
theorem shows its quantity always equals the derived value
total minus offered minus allocated. -/
structure AgentLedger where
  total : Resources
  free : Resources
  offered : List Offer
  allocated : Resources
deriving DecidableEq

/-- Quantity of a resource name embedded across a list of live offers. -/
def offeredQuantity (os : List Offer) (n : String) : ℚ :=
  (os.map (fun o => Resources.quantity o.resources n)).sum

/-- Tagged pool of all resources embedded in a list of live offers. -/
def offeredPool : List Offer → Resources
  | [] => []
  | o :: os => Resources.add o.resources (offeredPool os)

/-- Modelled from the spec: the conservation invariant, for every resource
name total equals the (derived) free quantity plus offered plus allocated. -/
def AgentLedger.conserved (l : AgentLedger) : Prop :=
  ∀ n, Resources.quantity l.total n =
    Resources.quantity l.free n + offeredQuantity l.offered n +
      Resources.quantity l.allocated n

/-- Modelled from the spec and the ACL protobuf driven by the tests: an ACL
entity is ANY, NONE or an explicit list of values. -/
inductive Entity where
  | any
  | noneOf
  | values (vs : List String)
deriving DecidableEq

def Entity.matches : Entity → String → Bool
  | .any, _ => true
  | .noneOf, _ => false
  | .values vs, s => vs.contains s

/-- Modelled from the spec: a reserve rule matches on (acting principal,
target resources/roles). -/
structure ReserveACL where
  principals : Entity
  resources : Entity
deriving DecidableEq

/-- Modelled from the spec: an unreserve rule matches on two principal
dimensions, the acting principal and the reserver principals whose prior
reservation is being undone. -/
structure UnreserveACL where
  principals : Entity
  reserverPrincipals : Entity
deriving DecidableEq

structure ACLs where
  reserveResources : List ReserveACL
  unreserveResources : List UnreserveACL
deriving DecidableEq

/-- Modelled from the spec: reserve authorization; the first rule whose
principals entity matches the actor decides, and with no matching rule the
gate is permissive (the tests run with an empty ACL set and succeed). -/
def authorizeReserve (acls : ACLs) (principal : String)
    (roles : List String) : Bool :=
  match acls.reserveResources.find? (fun a => a.principals.matches principal) with
  | some a => roles.all a.resources.matches
  | none => true

/-- Modelled from the spec: unreserve authorization over the two principal
dimensions; the first rule whose principals entity matches the acting
principal decides, by matching its reserver-principals entity against every
reserver principal being undone. -/
def authorizeUnreserve (acls : ACLs) (principal : String)
    (reservers : List String) : Bool :=
  match acls.unreserveResources.find? (fun a => a.principals.matches principal) with
  | some a => reservers.all a.reserverPrincipals.matches
  | none => true

/-- An operator credential: principal plus secret. -/
structure Credential where
  principal : String
  secret : String
deriving DecidableEq

/-- Modelled from the spec: manager state, the per-agent ledgers (with their
offer trackers), the configured ACLs and the credential store. -/
structure Master where
  agents : List (ℕ × AgentLedger)
  acls : ACLs
  credentials : List Credential
deriving DecidableEq

/-- Modelled from the spec: authentication, the supplied credential must be
present in the credential store. -/
def authenticate (m : Master) (c : Credential) : Bool :=
  m.credentials.contains c

/-- Modelled from the spec: a reservation request names an agent and a
resource list; `Option` models a field omitted from the form-encoded body. -/
structure Request where
  slaveId : Option ℕ
  resources : Option Resources
deriving DecidableEq

inductive Direction where
  | reserve
  | unreserve
deriving DecidableEq

/-- Modelled from the spec error taxonomy (section 7). -/
inductive Response where
  | ok
  | malformedRequest
  | unauthenticated
  | unauthorized
  | insufficientResources
deriving DecidableEq

/-- HTTP status surfaced for each outcome. -/
def Response.httpStatus : Response → ℕ
  | .ok => 200
  | .malformedRequest => 400
  | .unauthenticated => 401
  | .unauthorized => 403
  | .insufficientResources => 409

/-- Modelled from the spec: structural validity of one requested resource, it
must carry exactly one reservation tag with a non-empty principal. -/
def validResource (r : Resource) : Bool :=
  match r.reservation with
  | some ri => ri.principal != ""
  | none => false

/-- All requested resources must share the same role. -/
def sameRole : Resources → Bool
  | [] => true
  | r :: rs => rs.all (fun x => x.role == r.role)

/-- Modelled from the spec, pipeline step 1: non-empty resource list, every
resource tagged with a non-empty principal, all tags sharing one role. -/
def validateResources (rs : Resources) : Bool :=
  !rs.isEmpty && rs.all validResource && sameRole rs

/-- Modelled from the spec, pipeline step 2 (reserve only): every tag
principal must equal the authenticated caller. -/
def principalsMatch (rs : Resources) (p : String) : Bool :=
  rs.all (fun r =>
    match r.reservation with
    | some ri => ri.principal == p
    | none => false)

/-- Reserver principals recorded in the tags of a resource list. -/
def reserverPrincipals (rs : Resources) : List String :=
  rs.filterMap (fun r => r.reservation.map ReservationInfo.principal)

/-- Authorization dispatch for the two endpoint directions. -/
def authorizedFor (acls : ACLs) (dir : Direction) (principal : String)
    (delta : Resources) : Bool :=
  match dir with
  | .reserve => authorizeReserve acls principal (delta.map Resource.role)
  | .unreserve => authorizeUnreserve acls principal (reserverPrincipals delta)

/-- Quantity that must be coverable by free plus offered: the unreserved form
of the delta for reserve, the tagged delta itself for unreserve. -/
def needOf (dir : Direction) (delta : Resources) : Resources :=
  match dir with
  | .reserve => Resources.unflatten delta
  | .unreserve => delta

/-- Form in which the delta re-enters the free pool after the apply step. -/
def appliedOf (dir : Direction) (delta : Resources) : Resources :=
  match dir with
  | .reserve => delta
  | .unreserve => Resources.unflatten delta

def lookupAgent : List (ℕ × AgentLedger) → ℕ → Option AgentLedger
  | [], _ => none
  | (i, l) :: rest, sid => if i = sid then some l else lookupAgent rest sid

def updateAgent : List (ℕ × AgentLedger) → ℕ → AgentLedger →
    List (ℕ × AgentLedger)
  | [], _, _ => []
  | (i, l) :: rest, sid, x =>
    if i = sid then (i, x) :: rest else (i, l) :: updateAgent rest sid x

/-- Observable events: an offer withdrawn from a scheduler, or a fresh offer
issued to one. -/
inductive Event where
  | rescinded (agentId : ℕ) (offerId : ℕ)
  | offerIssued (agentId : ℕ) (offerId : ℕ)
deriving DecidableEq

/-- Modelled from the spec, section 4.5: the Reservation Operation Processor
pipeline.  Authentication comes before any parsing of the payload; then
structural validation, principal matching (reserve only), authorization,
the sufficiency check against free plus offered, rescission of every
outstanding offer on the agent, and finally the apply step.  The processor
source is missing from the snapshot; only its endpoint tests are present.
Returns the response, the new manager state and the rescission events. -/
def processRequest (m : Master) (dir : Direction) (cred : Option Credential)
    (req : Request) : Response × Master × List Event :=
  match cred with
  | none => (.unauthenticated, m, [])
  | some c =>
    if authenticate m c = false then (.unauthenticated, m, [])
    else
      match req.slaveId with
      | none => (.malformedRequest, m, [])
      | some sid =>
        match lookupAgent m.agents sid with
        | none => (.malformedRequest, m, [])
        | some ledger =>
          match req.resources with
          | none => (.malformedRequest, m, [])
          | some delta =>
            if validateResources delta = false then (.malformedRequest, m, [])
            else if dir = Direction.reserve ∧
                principalsMatch delta c.principal = false then
              (.malformedRequest, m, [])
            else if authorizedFor m.acls dir c.principal delta = false then
              (.unauthorized, m, [])
            else
              match Resources.subtract
                  (Resources.add ledger.free (offeredPool ledger.offered))
                  (needOf dir delta) with
              | none => (.insufficientResources, m, [])
              | some rest =>
                (.ok,
                 { m with agents := (updateAgent m.agents sid
                     { total := ledger.total
                       free := Resources.add rest (appliedOf dir delta)
                       offered := []
                       allocated := ledger.allocated }) },
                 ledger.offered.map (fun o => Event.rescinded sid o.offerId))

/-- Remove the offer with a given id from a tracker list, returning it and
the remaining offers. -/
def removeOffer : List Offer → ℕ → Option (Offer × List Offer)
  | [], _ => none
  | o :: os, oid =>
    if o.offerId = oid then some (o, os)
    else (removeOffer os oid).map (fun p => (p.1, o :: p.2))

/-- Modelled from the spec: recording a newly issued offer moves its
resources from free into offered; it fails (a no-op here) when the agent no
longer exists or the resources are not free. -/
def issueOffer (m : Master) (o : Offer) : Master × List Event :=
  match lookupAgent m.agents o.agentId with
  | none => (m, [])
  | some l =>
    match Resources.subtract l.free o.resources with
    | none => (m, [])
    | some rest =>
      ({ m with agents := (updateAgent m.agents o.agentId
          { l with free := rest, offered := o :: l.offered }) },
       [Event.offerIssued o.agentId o.offerId])

/-- Modelled from the spec: an accepted offer's resources move to
allocated. -/
def acceptOffer (m : Master) (aid oid : ℕ) : Master :=
  match lookupAgent m.agents aid with
  | none => m
  | some l =>
    match removeOffer l.offered oid with
    | none => m
    | some (o, rest) =>
      { m with agents := (updateAgent m.agents aid
          { l with offered := rest,
                   allocated := Resources.add l.allocated o.resources }) }

/-- Modelled from the spec: a declined or rescinded offer's resources move
back to free; an unknown id is a no-op (rescission is idempotent). -/
def withdrawOffer (m : Master) (aid oid : ℕ) : Master :=
  match lookupAgent m.agents aid with
  | none => m
  | some l =>
    match removeOffer l.offered oid with
    | none => m
    | some (o, rest) =>
      { m with agents := (updateAgent m.agents aid
          { l with offered := rest,
                   free := Resources.add l.free o.resources }) }

/-- Modelled from the spec: task termination recovers the task's resources
from allocated back into free. -/
def recoverTask (m : Master) (aid : ℕ) (rs : Resources) : Master :=
  match lookupAgent m.agents aid with
  | none => m
  | some l =>
    match Resources.subtract l.allocated rs with
    | none => m
    | some rest =>
      { m with agents := (updateAgent m.agents aid
          { l with allocated := rest,
                   free := Resources.add l.free rs }) }

/-- The operations of the reservation pipeline named by the conservation
property: reserve/unreserve requests, offer issue, accept, decline, rescind
and task-resource recovery. -/
inductive Op where
  | request (dir : Direction) (cred : Option Credential) (req : Request)
  | issue (o : Offer)
  | accept (agentId : ℕ) (offerId : ℕ)
  | decline (agentId : ℕ) (offerId : ℕ)
  | rescind (agentId : ℕ) (offerId : ℕ)
  | recover (agentId : ℕ) (rs : Resources)

/-- One system step: the resulting state and the events it emits. -/
def applyOp (m : Master) : Op → Master × List Event
  | .request dir cred req =>
    ((processRequest m dir cred req).2.1, (processRequest m dir cred req).2.2)
  | .issue o => issueOffer m o
  | .accept aid oid => (acceptOffer m aid oid, [])
  | .decline aid oid => (withdrawOffer m aid oid, [])
  | .rescind aid oid => (withdrawOffer m aid oid, [])
  | .recover aid rs => (recoverTask m aid rs, [])

/-- Run a list of operations, concatenating the emitted events in order. -/
def runOps : Master → List Op → Master × List Event
  | m, [] => (m, [])
  | m, op :: ops =>
    ((runOps (applyOp m op).1 ops).1,
     (applyOp m op).2 ++ (runOps (applyOp m op).1 ops).2)

/-- Conservation over every agent of the manager. -/
def Master.conservedAll (m : Master) : Prop :=
  ∀ e ∈ m.agents, AgentLedger.conserved e.2

lemma quantity_nil (n : String) : Resources.quantity [] n = 0 := rfl

lemma quantity_cons (r : Resource) (rs : Resources) (n : String) :
    Resources.quantity (r :: rs) n =
      (if r.name = n then r.value.measure else 0) + Resources.quantity rs n := by
  simp [Resources.quantity]

lemma Value.measure_add {v w u : Value} (h : Value.add v w = some u) :
    u.measure = v.measure + w.measure := by
  cases v <;> cases w <;> simp [Value.add] at h <;> subst h <;>
    simp [Value.measure] <;> push_cast <;> ring

lemma removeOne_length {α : Type} [DecidableEq α] {x : α} {ys zs : List α}
    (h : removeOne x ys = some zs) : ys.length = zs.length + 1 := by
  induction ys generalizing zs with
  | nil => simp [removeOne] at h
  | cons y ys ih =>
    rw [removeOne] at h
    split at h
    · simp only [Option.some.injEq] at h
      subst h
      simp
    · cases hz : removeOne x ys with
      | none => rw [hz] at h; simp at h
      | some z =>
        rw [hz] at h
        simp at h
        subst h
        have := ih hz
        simp [List.length_cons]
        omega

lemma removeAll_length {α : Type} [DecidableEq α] {xs t out : List α}
    (h : removeAll xs t = some out) : t.length = out.length + xs.length := by
  induction xs generalizing t with
  | nil =>
    simp [removeAll] at h
    subst h
    simp
  | cons x xs ih =>
    rw [removeAll] at h
    cases h1 : removeOne x t with
    | none => rw [h1] at h; simp at h
    | some t2 =>
      rw [h1] at h
      simp only [Option.some_bind] at h
      have h2 := removeOne_length h1
      have h3 := ih h
      simp [List.length_cons]
      omega

lemma Value.measure_sub {v w u : Value} (h : Value.sub v w = some u) :
    v.measure = u.measure + w.measure := by
  cases v with
  | scalar p =>
    cases w with
    | scalar q =>
      simp only [Value.sub] at h
      split at h
      · simp only [Option.some.injEq] at h
        subst h
        simp [Value.measure]
      · simp at h
    | ranges ys => simp [Value.sub] at h
    | items ys => simp [Value.sub] at h
  | ranges xs =>
    cases w with
    | scalar q => simp [Value.sub] at h
    | ranges ys =>
      simp only [Value.sub] at h
      cases h1 : removeAll ys xs with
      | none => rw [h1] at h; simp at h
      | some out =>
        rw [h1] at h
        simp at h
        subst h
        have h2 := removeAll_length h1
        simp only [Value.measure]
        exact_mod_cast h2
    | items ys => simp [Value.sub] at h
  | items xs =>
    cases w with
    | scalar q => simp [Value.sub] at h
    | ranges ys => simp [Value.sub] at h
    | items ys =>
      simp only [Value.sub] at h
      cases h1 : removeAll ys xs with
      | none => rw [h1] at h; simp at h
      | some out =>
        rw [h1] at h
        simp at h
        subst h
        have h2 := removeAll_length h1
        simp only [Value.measure]
        exact_mod_cast h2

lemma Value.measure_of_isZero {v : Value} (h : v.isZero = true) :
    v.measure = 0 := by
  cases v <;> simp [Value.isZero] at h <;> simp [Value.measure, h]

lemma Resource.sameKey_name {a b : Resource} (h : a.sameKey b = true) :
    a.name = b.name := by
  simp [Resource.sameKey] at h
  exact h.1.1

lemma Resource.sameKey_refl (r : Resource) : r.sameKey r = true := by
  simp [Resource.sameKey]

lemma subOne_quantity {a : Resources} {r : Resource} {c : Resources}
    (h : Resources.subOne a r = some c) (n : String) :
    Resources.quantity a n =
      Resources.quantity c n + (if r.name = n then r.value.measure else 0) := by
  induction a generalizing c with
  | nil => simp [Resources.subOne] at h
  | cons x xs ih =>
    rw [Resources.subOne] at h
    split at h
    next hkey =>
      cases hv : Value.sub x.value r.value with
      | some v =>
        rw [hv] at h
        simp only [Option.some.injEq] at h
        subst h
        have hm := Value.measure_sub hv
        have hn := Resource.sameKey_name hkey
        by_cases hz : v.isZero = true
        · have h0 := Value.measure_of_isZero hz
          rw [if_pos hz, quantity_cons]
          by_cases hname : r.name = n
          · have hx : x.name = n := by rw [hn, hname]
            rw [if_pos hname, if_pos hx, hm, h0]
            ring
          · have hx : ¬ x.name = n := by rw [hn]; exact hname
            rw [if_neg hname, if_neg hx]
            ring
        · rw [if_neg hz, quantity_cons, quantity_cons]
          by_cases hname : r.name = n
          · have hx : x.name = n := by rw [hn, hname]
            simp only [if_pos hname, if_pos hx, hm]
            ring
          · have hx : ¬ x.name = n := by rw [hn]; exact hname
            simp only [if_neg hname, if_neg hx]
            ring
      | none =>
        rw [hv] at h
        cases h2 : Resources.subOne xs r with
        | none => rw [h2] at h; simp at h
        | some ys =>
          rw [h2] at h
          simp at h
          subst h
          rw [quantity_cons, quantity_cons, ih h2]
          ring
    next hkey =>
      cases h2 : Resources.subOne xs r with
      | none => rw [h2] at h; simp at h
      | some ys =>
        rw [h2] at h
        simp at h
        subst h
        rw [quantity_cons, quantity_cons, ih h2]
        ring

lemma subtract_quantity {a b c : Resources}
    (h : Resources.subtract a b = some c) (n : String) :
    Resources.quantity a n = Resources.quantity c n + Resources.quantity b n := by
  induction b generalizing a with
  | nil =>
    simp [Resources.subtract] at h
    subst h
    simp [quantity_nil]
  | cons r rs ih =>
    rw [Resources.subtract] at h
    cases h1 : Resources.subOne a r with
    | none => rw [h1] at h; simp at h
    | some c2 =>
      rw [h1] at h
      simp only [Option.some_bind] at h
      have h2 := subOne_quantity h1 n
      have h3 := ih h
      rw [quantity_cons]
      linarith

lemma addOne_quantity (a : Resources) (r : Resource) (n : String) :
    Resources.quantity (Resources.addOne a r) n =
      Resources.quantity a n + (if r.name = n then r.value.measure else 0) := by
  induction a with
  | nil =>
    rw [Resources.addOne, quantity_cons, quantity_nil]
    ring
  | cons x xs ih =>
    rw [Resources.addOne]
    split
    next hkey =>
      cases hv : Value.add x.value r.value with
      | some v =>
        have hm := Value.measure_add hv
        have hn := Resource.sameKey_name hkey
        rw [quantity_cons, quantity_cons]
        by_cases hname : r.name = n
        · have hx : x.name = n := by rw [hn, hname]
          simp only [if_pos hname, if_pos hx, hm]
          ring
        · have hx : ¬ x.name = n := by rw [hn]; exact hname
          simp only [if_neg hname, if_neg hx]
          ring
      | none =>
        rw [quantity_cons, quantity_cons, ih]
        ring
    next hkey =>
      rw [quantity_cons, quantity_cons, ih]
      ring

lemma add_quantity (a b : Resources) (n : String) :
    Resources.quantity (Resources.add a b) n =
      Resources.quantity a n + Resources.quantity b n := by
  induction b generalizing a with
  | nil => simp [Resources.add, quantity_nil]
  | cons r rs ih =>
    rw [Resources.add, ih, addOne_quantity, quantity_cons]
    ring

lemma flatten_quantity (rs : Resources) (role : String)
    (tag : Option ReservationInfo) (n : String) :
    Resources.quantity (Resources.flatten rs role tag) n =
      Resources.quantity rs n := by
  induction rs with
  | nil => rfl
  | cons r rs ih =>
    simp only [Resources.flatten, List.map_cons] at ih ⊢
    rw [quantity_cons, quantity_cons, ih]
    simp [Resource.flatten]

lemma appliedOf_quantity (dir : Direction) (delta : Resources) (n : String) :
    Resources.quantity (appliedOf dir delta) n =
      Resources.quantity (needOf dir delta) n := by
  cases dir <;>
    simp [appliedOf, needOf, Resources.unflatten, flatten_quantity]

lemma offeredQuantity_nil (n : String) :
    offeredQuantity ([] : List Offer) n = 0 := rfl

lemma offeredQuantity_cons (o : Offer) (os : List Offer) (n : String) :
    offeredQuantity (o :: os) n =
      Resources.quantity o.resources n + offeredQuantity os n := by
  simp [offeredQuantity]

lemma offeredPool_quantity (os : List Offer) (n : String) :
    Resources.quantity (offeredPool os) n = offeredQuantity os n := by
  induction os with
  | nil => rfl
  | cons o os ih =>
    rw [offeredPool, add_quantity, ih, offeredQuantity_cons]

lemma removeOffer_quantity {os : List Offer} {oid : ℕ} {o : Offer}
    {rest : List Offer} (h : removeOffer os oid = some (o, rest)) (n : String) :
    offeredQuantity os n =
      Resources.quantity o.resources n + offeredQuantity rest n := by
  induction os generalizing o rest with
  | nil => simp [removeOffer] at h
  | cons x xs ih =>
    rw [removeOffer] at h
    split at h
    · simp only [Option.some.injEq, Prod.mk.injEq] at h
      obtain ⟨h1, h2⟩ := h
      subst h1
      subst h2
      rw [offeredQuantity_cons]
    · cases h2 : removeOffer xs oid with
      | none => rw [h2] at h; simp at h
      | some p =>
        rw [h2] at h
        simp at h
        obtain ⟨h3, h4⟩ := h
        subst h3
        subst h4
        have hih := ih (show removeOffer xs oid = some (p.1, p.2) by rw [h2])
        rw [offeredQuantity_cons, offeredQuantity_cons, hih]
        ring

lemma removeAll_self {α : Type} [DecidableEq α] (xs : List α) :
    removeAll xs xs = some [] := by
  induction xs with
  | nil => rfl
  | cons x xs ih =>
    rw [removeAll, removeOne, if_pos rfl]
    simpa using ih

lemma Value.sub_self (v : Value) :
    ∃ z, Value.sub v v = some z ∧ z.isZero = true := by
  cases v with
  | scalar q =>
    exact ⟨.scalar 0, by simp [Value.sub], by simp [Value.isZero]⟩
  | ranges xs =>
    exact ⟨.ranges [], by simp [Value.sub, removeAll_self], by simp [Value.isZero]⟩
  | items xs =>
    exact ⟨.items [], by simp [Value.sub, removeAll_self], by simp [Value.isZero]⟩

lemma subOne_cons_self (r : Resource) (xs : Resources) :
    Resources.subOne (r :: xs) r = some xs := by
  obtain ⟨z, hz, hzero⟩ := Value.sub_self r.value
  simp [Resources.subOne, Resource.sameKey_refl, hz, hzero]

lemma subtract_self (rs : Resources) : Resources.subtract rs rs = some [] := by
  induction rs with
  | nil => rfl
  | cons r xs ih =>
    rw [Resources.subtract, subOne_cons_self]
    simpa using ih

/-- Pairwise-distinct identity keys within a resource list. -/
def keysDistinct (rs : Resources) : Prop :=
  List.Pairwise (fun a b => a.sameKey b = false) rs

lemma addOne_append {acc : Resources} {r : Resource}
    (h : ∀ x ∈ acc, x.sameKey r = false) :
    Resources.addOne acc r = acc ++ [r] := by
  induction acc with
  | nil => rfl
  | cons x xs ih =>
    rw [Resources.addOne]
    have hx : ¬ x.sameKey r = true := by
      rw [h x (List.mem_cons_self x xs)]
      simp
    rw [if_neg hx, ih (fun y hy => h y (List.mem_cons_of_mem _ hy))]
    rfl

lemma add_eq_append {acc rs : Resources}
    (hdisj : ∀ x ∈ acc, ∀ y ∈ rs, x.sameKey y = false)
    (hkeys : keysDistinct rs) :
    Resources.add acc rs = acc ++ rs := by
  induction rs generalizing acc with
  | nil => simp [Resources.add]
  | cons r rs ih =>
    rw [Resources.add]
    rw [addOne_append (fun x hx => hdisj x hx r (List.mem_cons_self r rs))]
    rw [ih ?hd ?hk]
    · simp
    case hd =>
      intro x hx y hy
      rcases List.mem_append.mp hx with h1 | h1
      · exact hdisj x h1 y (List.mem_cons_of_mem _ hy)
      · rcases List.mem_singleton.mp h1 with rfl
        exact (List.pairwise_cons.mp hkeys).1 y hy
    case hk => exact (List.pairwise_cons.mp hkeys).2

lemma add_nil_eq {rs : Resources} (h : keysDistinct rs) :
    Resources.add [] rs = rs := by
  have := @add_eq_append [] rs (by intro x hx; simp at hx) h
  simpa using this

lemma unflatten_flatten (rs : Resources) (role : String)
    (tag : Option ReservationInfo) :
    Resources.unflatten (Resources.flatten rs role tag) =
      Resources.unflatten rs := by
  simp only [Resources.unflatten, Resources.flatten, List.map_map]
  rfl

lemma unflatten_of_unreserved {rs : Resources}
    (h : Resources.allUnreserved rs = true) : Resources.unflatten rs = rs := by
  induction rs with
  | nil => rfl
  | cons r xs ih =>
    simp only [Resources.allUnreserved, List.all_cons, Bool.and_eq_true,
      beq_iff_eq] at h
    obtain ⟨⟨h1, h2⟩, h3⟩ := h
    simp only [Resources.unflatten, Resources.flatten, List.map_cons] at ih ⊢
    rw [ih h3]
    cases r with
    | mk nm rl rv vl =>
      simp only [Resource.flatten]
      simp at h1 h2
      rw [h1, h2]

lemma keysDistinct_flatten {rs : Resources}
    (h : List.Pairwise (fun a b => a.name ≠ b.name) rs)
    (role : String) (tag : Option ReservationInfo) :
    keysDistinct (Resources.flatten rs role tag) := by
  unfold keysDistinct Resources.flatten
  refine List.Pairwise.map _ ?_ h
  intro a b hne
  simp [Resource.sameKey, Resource.flatten, hne]

lemma keysDistinct_of_names {rs : Resources}
    (h : List.Pairwise (fun a b => a.name ≠ b.name) rs) : keysDistinct rs := by
  refine h.imp ?_
  intro a b hne
  simp [Resource.sameKey, hne]

lemma lookupAgent_mem {ags : List (ℕ × AgentLedger)} {sid : ℕ}
    {l : AgentLedger} (h : lookupAgent ags sid = some l) : (sid, l) ∈ ags := by
  induction ags with
  | nil => simp [lookupAgent] at h
  | cons a rest ih =>
    cases a with
    | mk i y =>
      rw [lookupAgent] at h
      split at h
      next hi =>
        simp only [Option.some.injEq] at h
        subst h
        subst hi
        exact List.mem_cons_self _ _
      next hi =>
        exact List.mem_cons_of_mem _ (ih h)

lemma lookupAgent_update_self {ags : List (ℕ × AgentLedger)} {sid : ℕ}
    {l : AgentLedger} (h : lookupAgent ags sid = some l) (x : AgentLedger) :
    lookupAgent (updateAgent ags sid x) sid = some x := by
  induction ags with
  | nil => simp [lookupAgent] at h
  | cons a rest ih =>
    cases a with
    | mk i y =>
      rw [lookupAgent] at h
      rw [updateAgent]
      split at h
      next hi =>
        rw [if_pos hi, lookupAgent, if_pos hi]
      next hi =>
        rw [if_neg hi, lookupAgent, if_neg hi]
        exact ih h

lemma mem_updateAgent {ags : List (ℕ × AgentLedger)} {sid : ℕ}
    {x : AgentLedger} {e : ℕ × AgentLedger} (he : e ∈ updateAgent ags sid x) :
    e.2 = x ∨ e ∈ ags := by
  induction ags with
  | nil => simp [updateAgent] at he
  | cons a rest ih =>
    cases a with
    | mk i l =>
      rw [updateAgent] at he
      split at he
      · rcases List.mem_cons.mp he with h1 | h1
        · left
          rw [h1]
        · right
          exact List.mem_cons_of_mem _ h1
      · rcases List.mem_cons.mp he with h1 | h1
        · right
          rw [h1]
          exact List.mem_cons_self _ _
        · rcases ih h1 with h2 | h2
          · left
            exact h2
          · right
            exact List.mem_cons_of_mem _ h2

lemma conserved_of_lookup {m : Master} {sid : ℕ} {l : AgentLedger}
    (h : Master.conservedAll m) (hl : lookupAgent m.agents sid = some l) :
    l.conserved :=
  h (sid, l) (lookupAgent_mem hl)

lemma conservedAll_update {m : Master} {sid : ℕ} {x : AgentLedger}
    (h : Master.conservedAll m) (hx : x.conserved) :
    Master.conservedAll { m with agents := updateAgent m.agents sid x } := by
  intro e he
  rcases mem_updateAgent he with h1 | h1
  · rw [h1]
    exact hx
  · exact h e h1

lemma conserved_applyLedger {ledger : AgentLedger} {dir : Direction}
    {delta rest : Resources}
    (hsub : Resources.subtract
      (Resources.add ledger.free (offeredPool ledger.offered))
      (needOf dir delta) = some rest)
    (hc : ledger.conserved) :
    AgentLedger.conserved
      { total := ledger.total
        free := Resources.add rest (appliedOf dir delta)
        offered := []
        allocated := ledger.allocated } := by
  intro n
  have h1 := subtract_quantity hsub n
  have h2 := add_quantity ledger.free (offeredPool ledger.offered) n
  have h3 := add_quantity rest (appliedOf dir delta) n
  have h4 := offeredPool_quantity ledger.offered n
  have h5 := appliedOf_quantity dir delta n
  have h6 := hc n
  show Resources.quantity ledger.total n =
    Resources.quantity (Resources.add rest (appliedOf dir delta)) n +
      offeredQuantity [] n + Resources.quantity ledger.allocated n
  rw [offeredQuantity_nil]
  linarith

lemma issueOffer_conserved (m : Master) (o : Offer)
    (h : Master.conservedAll m) : Master.conservedAll (issueOffer m o).1 := by
  cases hl : lookupAgent m.agents o.agentId with
  | none =>
    simp only [issueOffer, hl]
    exact h
  | some l =>
    cases hsub : Resources.subtract l.free o.resources with
    | none =>
      simp only [issueOffer, hl, hsub]
      exact h
    | some rest =>
      simp only [issueOffer, hl, hsub]
      refine conservedAll_update h ?_
      intro n
      have h1 := subtract_quantity hsub n
      have h6 := conserved_of_lookup h hl n
      show Resources.quantity l.total n =
        Resources.quantity rest n + offeredQuantity (o :: l.offered) n +
          Resources.quantity l.allocated n
      rw [offeredQuantity_cons]
      linarith

lemma acceptOffer_conserved (m : Master) (aid oid : ℕ)
    (h : Master.conservedAll m) : Master.conservedAll (acceptOffer m aid oid) := by
  cases hl : lookupAgent m.agents aid with
  | none =>
    simp only [acceptOffer, hl]
    exact h
  | some l =>
    cases hr : removeOffer l.offered oid with
    | none =>
      simp only [acceptOffer, hl, hr]
      exact h
    | some p =>
      cases p with
      | mk o rest =>
        simp only [acceptOffer, hl, hr]
        refine conservedAll_update h ?_
        intro n
        have h1 := removeOffer_quantity hr n
        have h2 := add_quantity l.allocated o.resources n
        have h6 := conserved_of_lookup h hl n
        show Resources.quantity l.total n =
          Resources.quantity l.free n + offeredQuantity rest n +
            Resources.quantity (Resources.add l.allocated o.resources) n
        linarith

lemma withdrawOffer_conserved (m : Master) (aid oid : ℕ)
    (h : Master.conservedAll m) :
    Master.conservedAll (withdrawOffer m aid oid) := by
  cases hl : lookupAgent m.agents aid with
  | none =>
    simp only [withdrawOffer, hl]
    exact h
  | some l =>
    cases hr : removeOffer l.offered oid with
    | none =>
      simp only [withdrawOffer, hl, hr]
      exact h
    | some p =>
      cases p with
      | mk o rest =>
        simp only [withdrawOffer, hl, hr]
        refine conservedAll_update h ?_
        intro n
        have h1 := removeOffer_quantity hr n
        have h2 := add_quantity l.free o.resources n
        have h6 := conserved_of_lookup h hl n
        show Resources.quantity l.total n =
          Resources.quantity (Resources.add l.free o.resources) n +
            offeredQuantity rest n + Resources.quantity l.allocated n
        linarith

lemma recoverTask_conserved (m : Master) (aid : ℕ) (rs : Resources)
    (h : Master.conservedAll m) : Master.conservedAll (recoverTask m aid rs) := by
  cases hl : lookupAgent m.agents aid with
  | none =>
    simp only [recoverTask, hl]
    exact h
  | some l =>
    cases hsub : Resources.subtract l.allocated rs with
    | none =>
      simp only [recoverTask, hl, hsub]
      exact h
    | some rest =>
      simp only [recoverTask, hl, hsub]
      refine conservedAll_update h ?_
      intro n
      have h1 := subtract_quantity hsub n
      have h2 := add_quantity l.free rs n
      have h6 := conserved_of_lookup h hl n
      show Resources.quantity l.total n =
        Resources.quantity (Resources.add l.free rs) n +
          offeredQuantity l.offered n + Resources.quantity rest n
      linarith

/-- Case analysis of the processor pipeline: either the request fails with a
non-ok response and the manager state and event list are untouched, or every
check passed and the single mutated agent ledger has the applied free pool
and an emptied offer tracker. -/
lemma processRequest_spec (m : Master) (dir : Direction)
    (cred : Option Credential) (req : Request) :
    (∃ r, processRequest m dir cred req = (r, m, []) ∧ r ≠ Response.ok) ∨
    (∃ c sid ledger delta rest,
      cred = some c ∧
      req.slaveId = some sid ∧
      req.resources = some delta ∧
      lookupAgent m.agents sid = some ledger ∧
      Resources.subtract
        (Resources.add ledger.free (offeredPool ledger.offered))
        (needOf dir delta) = some rest ∧
      processRequest m dir cred req =
        (Response.ok,
         { m with agents := (updateAgent m.agents sid
             { total := ledger.total
               free := Resources.add rest (appliedOf dir delta)
               offered := []
               allocated := ledger.allocated }) },
         ledger.offered.map (fun o => Event.rescinded sid o.offerId))) := by
  unfold processRequest
  split
  · exact Or.inl ⟨_, rfl, by simp⟩
  next c =>
    split
    · exact Or.inl ⟨_, rfl, by simp⟩
    split
    · exact Or.inl ⟨_, rfl, by simp⟩
    next sid hsid =>
      split
      · exact Or.inl ⟨_, rfl, by simp⟩
      next ledger hlook =>
        split
        · exact Or.inl ⟨_, rfl, by simp⟩
        next delta hres =>
          split
          · exact Or.inl ⟨_, rfl, by simp⟩
          split
          · exact Or.inl ⟨_, rfl, by simp⟩
          split
          · exact Or.inl ⟨_, rfl, by simp⟩
          split
          · exact Or.inl ⟨_, rfl, by simp⟩
          next rest hsub =>
            exact Or.inr ⟨c, sid, ledger, delta, rest, rfl, hsid, hres,
              hlook, hsub, rfl⟩

/-- Successful run of the pipeline under explicit hypotheses that every
check passes. -/
lemma processRequest_ok
    (m : Master) (dir : Direction) (c : Credential) (sid : ℕ)
    (ledger : AgentLedger) (delta rest : Resources)
    (hauth : authenticate m c = true)
    (hlook : lookupAgent m.agents sid = some ledger)
    (hval : validateResources delta = true)
    (hpm : dir = Direction.reserve → principalsMatch delta c.principal = true)
    (hacl : authorizedFor m.acls dir c.principal delta = true)
    (hsub : Resources.subtract
      (Resources.add ledger.free (offeredPool ledger.offered))
      (needOf dir delta) = some rest) :
    processRequest m dir (some c)
        { slaveId := some sid, resources := some delta } =
      (Response.ok,
       { m with agents := (updateAgent m.agents sid
           { total := ledger.total
             free := Resources.add rest (appliedOf dir delta)
             offered := []
             allocated := ledger.allocated }) },
       ledger.offered.map (fun o => Event.rescinded sid o.offerId)) := by
  have hpm2 : ¬ (dir = Direction.reserve ∧
      principalsMatch delta c.principal = false) := by
    rintro ⟨h1, h2⟩
    rw [hpm h1] at h2
    exact absurd h2 (by simp)
  unfold processRequest
  simp [hauth, hlook, hval, hacl, hsub, hpm2]

lemma validate_flatten {F : Resources} {p : String} (role : String)
    (hne : F ≠ []) (hp : p ≠ "") :
    validateResources (Resources.flatten F role (some ⟨p⟩)) = true := by
  cases F with
  | nil => exact absurd rfl hne
  | cons r rs =>
    simp [validateResources, Resources.flatten, validResource, sameRole,
      Resource.flatten, hp, List.all_eq_true]

lemma principalsMatch_flatten (F : Resources) (role p : String) :
    principalsMatch (Resources.flatten F role (some ⟨p⟩)) p = true := by
  simp [principalsMatch, Resources.flatten, Resource.flatten, List.all_eq_true]

/-- Reserving a free, unreserved resource set and then unreserving the same
set both succeed, rescind nothing when no offer is outstanding, and restore
the free pool exactly. -/
lemma roundtrip_states
    (m : Master) (c : Credential) (sid : ℕ) (ledger : AgentLedger)
    (F : Resources) (role : String)
    (hauth : authenticate m c = true)
    (hlook : lookupAgent m.agents sid = some ledger)
    (hfree : ledger.free = F)
    (hoff : ledger.offered = [])
    (hunres : Resources.allUnreserved F = true)
    (hnames : List.Pairwise (fun a b => a.name ≠ b.name) F)
    (hne : F ≠ [])
    (hp : c.principal ≠ "")
    (haclR : authorizeReserve m.acls c.principal
      ((Resources.flatten F role (some ⟨c.principal⟩)).map Resource.role) =
        true)
    (haclU : authorizeUnreserve m.acls c.principal
      (reserverPrincipals (Resources.flatten F role (some ⟨c.principal⟩))) =
        true) :
    ∃ m1 m2 l2,
      processRequest m Direction.reserve (some c)
          { slaveId := some sid,
            resources := some (Resources.flatten F role (some ⟨c.principal⟩)) } =
        (Response.ok, m1, []) ∧
      processRequest m1 Direction.unreserve (some c)
          { slaveId := some sid,
            resources := some (Resources.flatten F role (some ⟨c.principal⟩)) } =
        (Response.ok, m2, []) ∧
      lookupAgent m2.agents sid = some l2 ∧
      l2.free = F ∧ l2.offered = [] ∧
      l2.total = ledger.total ∧ l2.allocated = ledger.allocated := by
  have hval : validateResources
      (Resources.flatten F role (some ⟨c.principal⟩)) = true :=
    validate_flatten role hne hp
  have hkdF : keysDistinct F := keysDistinct_of_names hnames
  have hkdD : keysDistinct (Resources.flatten F role (some ⟨c.principal⟩)) :=
    keysDistinct_flatten hnames role (some ⟨c.principal⟩)
  have hUF : Resources.unflatten
      (Resources.flatten F role (some ⟨c.principal⟩)) = F := by
    rw [unflatten_flatten, unflatten_of_unreserved hunres]
  have hsub1 : Resources.subtract
      (Resources.add ledger.free (offeredPool ledger.offered))
      (needOf Direction.reserve
        (Resources.flatten F role (some ⟨c.principal⟩))) = some [] := by
    rw [hfree, hoff]
    show Resources.subtract F
      (Resources.unflatten (Resources.flatten F role (some ⟨c.principal⟩))) =
        some []
    rw [hUF]
    exact subtract_self F
  have hrun1 := processRequest_ok m Direction.reserve c sid ledger
    (Resources.flatten F role (some ⟨c.principal⟩)) [] hauth hlook hval
    (fun _ => principalsMatch_flatten F role c.principal) haclR hsub1
  rw [hoff] at hrun1
  have hlook1 : lookupAgent
      (updateAgent m.agents sid
        { total := ledger.total
          free := Resources.add []
            (appliedOf Direction.reserve
              (Resources.flatten F role (some ⟨c.principal⟩)))
          offered := []
          allocated := ledger.allocated }) sid =
      some
        { total := ledger.total
          free := Resources.add []
            (appliedOf Direction.reserve
              (Resources.flatten F role (some ⟨c.principal⟩)))
          offered := []
          allocated := ledger.allocated } :=
    lookupAgent_update_self hlook _
  have hAD : Resources.add []
      (Resources.flatten F role (some ⟨c.principal⟩)) =
      Resources.flatten F role (some ⟨c.principal⟩) := add_nil_eq hkdD
  have hsub2 : Resources.subtract
      (Resources.add
        (Resources.add []
          (appliedOf Direction.reserve
            (Resources.flatten F role (some ⟨c.principal⟩))))
        (offeredPool []))
      (needOf Direction.unreserve
        (Resources.flatten F role (some ⟨c.principal⟩))) = some [] := by
    show Resources.subtract
      (Resources.add [] (Resources.flatten F role (some ⟨c.principal⟩)))
      (Resources.flatten F role (some ⟨c.principal⟩)) = some []
    rw [hAD]
    exact subtract_self (Resources.flatten F role (some ⟨c.principal⟩))
  have hrun2 := processRequest_ok
    { m with agents := (updateAgent m.agents sid
        { total := ledger.total
          free := Resources.add []
            (appliedOf Direction.reserve
              (Resources.flatten F role (some ⟨c.principal⟩)))
          offered := []
          allocated := ledger.allocated }) }
    Direction.unreserve c sid
    { total := ledger.total
      free := Resources.add []
        (appliedOf Direction.reserve
          (Resources.flatten F role (some ⟨c.principal⟩)))
      offered := []
      allocated := ledger.allocated }
    (Resources.flatten F role (some ⟨c.principal⟩)) []
    hauth hlook1 hval (fun h => nomatch h) haclU hsub2
  refine ⟨_, _, _, hrun1, hrun2, lookupAgent_update_self hlook1 _, ?_, rfl,
    rfl, rfl⟩
  show Resources.add []
    (appliedOf Direction.unreserve
      (Resources.flatten F role (some ⟨c.principal⟩))) = F
  show Resources.add []
    (Resources.unflatten (Resources.flatten F role (some ⟨c.principal⟩))) = F
  rw [hUF]
  exact add_nil_eq hkdF

/-- Sample unreserved cpus:1 resource with the default role. -/
def sampleCpus : Resource :=
  { name := "cpus", role := "*", reservation := none, value := Value.scalar 1 }

/-- Sample unreserved mem:512 resource with the default role. -/
def sampleMem : Resource :=
  { name := "mem", role := "*", reservation := none,
    value := Value.scalar 512 }

/-- Sample operator credential. -/
def sampleCred : Credential := { principal := "ops", secret := "secret" }

/-- Empty (fully permissive) ACL configuration. -/
def emptyACLs : ACLs := { reserveResources := [], unreserveResources := [] }

/-- Agent with cpus:1;mem:512 entirely free. -/
def sampleLedger : AgentLedger :=
  { total := [sampleCpus, sampleMem], free := [sampleCpus, sampleMem],
    offered := [], allocated := [] }

/-- One-agent manager with permissive ACLs. -/
def sampleMaster : Master :=
  { agents := [(0, sampleLedger)], acls := emptyACLs,
    credentials := [sampleCred] }

/-- Sample unreserved ports range resource with the default role. -/
def samplePorts : Resource :=
  { name := "ports", role := "*", reservation := none,
    value := Value.ranges [31000, 31001] }

/-- Outstanding offer carrying the mem:512 portion of the sample agent. -/
def sampleOffer : Offer :=
  { offerId := 7, frameworkId := 1, agentId := 0, resources := [sampleMem],
    createdAt := 0 }

/-- Agent with two ports free and mem:512 embedded in an outstanding
offer. -/
def offerLedger : AgentLedger :=
  { total := [samplePorts, sampleMem], free := [samplePorts],
    offered := [sampleOffer], allocated := [] }

/-- One-agent manager holding the outstanding offer. -/
def offerMaster : Master :=
  { agents := [(0, offerLedger)], acls := emptyACLs,
    credentials := [sampleCred] }

/-- Reservation of cpus:1;mem:512 onto role "role" for principal "ops". -/
def sampleDelta : Resources :=
  Resources.flatten [sampleCpus, sampleMem] "role" (some ⟨"ops"⟩)

/-- Oversized reservation of Scenario B: cpus:4;mem:4096 onto "role". -/
def bigDelta : Resources :=
  Resources.flatten
    [{ name := "cpus", role := "*", reservation := none,
       value := Value.scalar 4 },
     { name := "mem", role := "*", reservation := none,
       value := Value.scalar 4096 }]
    "role" (some ⟨"ops"⟩)

/-- ACLs of the BadUnreserveACL test: any principal may unreserve nothing. -/
def denyUnreserveACLs : ACLs :=
  { reserveResources := [],
    unreserveResources :=
      [{ principals := Entity.any, reserverPrincipals := Entity.noneOf }] }

/-- One-agent manager whose ACLs deny every unreserve. -/
def denyMaster : Master :=
  { agents := [(0, sampleLedger)], acls := denyUnreserveACLs,
    credentials := [sampleCred] }

/-- Reservation of the ports range onto role "role" for principal "ops". -/
def reservePortsDelta : Resources :=
  Resources.flatten [samplePorts] "role" (some ⟨"ops"⟩)

/-- Reservation of cpus:1;mem:512 stamped with a principal different from
the sample caller. -/
def mismatchDelta : Resources :=
  Resources.flatten [sampleCpus, sampleMem] "role" (some ⟨"badPrincipal"⟩)

/-- C1, counterexample: the claimed round-trip
`unflatten (flatten R role principal) = R` fails for a resource quantity R
that already carries a non-default role or a reservation tag, because
unflatten strips the role and tag back to the defaults rather than to R's
original metadata. -/
theorem flatten_roundtrip_counterexample :
    Resources.unflatten
        (Resources.flatten
          [{ name := "cpus", role := "role", reservation := some ⟨"ops"⟩,
             value := Value.scalar 1 }] "role" (some ⟨"ops"⟩)) ≠
      [{ name := "cpus", role := "role", reservation := some ⟨"ops"⟩,
         value := Value.scalar 1 }] := by
  decide

/-- C1, amended: for every resource quantity R, every role and every
principal tag, flatten leaves the numeric quantity of every resource name
unchanged whatever metadata R carries; and whenever R is unreserved (default
role, no reservation tag — the valid inputs of flatten), stripping the
metadata stamped by flatten restores R exactly. -/
theorem flatten_roundtrip_on_unreserved (rs : Resources) (role : String)
    (tag : Option ReservationInfo) :
    (Resources.allUnreserved rs = true →
      Resources.unflatten (Resources.flatten rs role tag) = rs) ∧
    ∀ n, Resources.quantity (Resources.flatten rs role tag) n =
      Resources.quantity rs n := by
  constructor
  · intro h
    rw [unflatten_flatten, unflatten_of_unreserved h]
  · intro n
    exact flatten_quantity rs role tag n

/-- Witness for C1: the round-trip applied to unreserved cpus:1;mem:512, and
quantity preservation applied to a resource already carrying a role and
reservation tag. -/
theorem flatten_roundtrip_on_unreserved_witness :
    Resources.allUnreserved [sampleCpus, sampleMem] = true ∧
    Resources.unflatten
        (Resources.flatten [sampleCpus, sampleMem] "role" (some ⟨"ops"⟩)) =
      [sampleCpus, sampleMem] ∧
    Resources.quantity
        (Resources.flatten
          [{ name := "cpus", role := "role", reservation := some ⟨"ops"⟩,
             value := Value.scalar 1 }] "role2" (some ⟨"other"⟩)) "cpus" =
      Resources.quantity
        [{ name := "cpus", role := "role", reservation := some ⟨"ops"⟩,
           value := Value.scalar 1 }] "cpus" :=
  ⟨by decide,
   (flatten_roundtrip_on_unreserved [sampleCpus, sampleMem] "role"
     (some ⟨"ops"⟩)).1 (by decide),
   (flatten_roundtrip_on_unreserved
     [{ name := "cpus", role := "role", reservation := some ⟨"ops"⟩,
        value := Value.scalar 1 }] "role2" (some ⟨"other"⟩)).2 "cpus"⟩

/-- C2: every operation of the reservation pipeline — reserve or unreserve
request, offer issue, accept, decline, rescind and task-resource recovery —
preserves the per-agent conservation equation `total = free + offered +
allocated` at every resource name, so the stored free pool always equals the
derived quantity total minus offered minus allocated. -/
theorem reservation_ops_preserve_conservation (m : Master) (op : Op)
    (h : Master.conservedAll m) : Master.conservedAll (applyOp m op).1 := by
  cases op with
  | request dir cred req =>
    rcases processRequest_spec m dir cred req with ⟨r, heq, _⟩ |
      ⟨c, sid, ledger, delta, rest, _, _, _, hlook, hsub, heq⟩
    · simpa [applyOp, heq] using h
    · simp only [applyOp, heq]
      exact conservedAll_update h
        (conserved_applyLedger hsub (conserved_of_lookup h hlook))
  | issue o => exact issueOffer_conserved m o h
  | accept aid oid => exact acceptOffer_conserved m aid oid h
  | decline aid oid => exact withdrawOffer_conserved m aid oid h
  | rescind aid oid => exact withdrawOffer_conserved m aid oid h
  | recover aid rs => exact recoverTask_conserved m aid rs h

/-- Witness for C2: conservation of the concrete one-agent manager is
preserved by a reserve request. -/
theorem reservation_ops_preserve_conservation_witness :
    Master.conservedAll sampleMaster ∧
    Master.conservedAll
      (applyOp sampleMaster
        (Op.request Direction.reserve (some sampleCred)
          { slaveId := some 0, resources := some sampleDelta })).1 := by
  have h : Master.conservedAll sampleMaster := by
    intro e he
    simp [sampleMaster] at he
    subst he
    intro n
    simp [sampleLedger, Resources.quantity, offeredQuantity, sampleCpus,
      sampleMem]
  exact ⟨h, reservation_ops_preserve_conservation sampleMaster _ h⟩

/-- C3: a reserve or unreserve request whose delta is not contained in free
plus offered for the target agent (resources bound to running tasks being
excluded from the sufficiency base) is answered with InsufficientResources
(HTTP 409) on both endpoints, with no mutation of the ledger or the
offers. -/
theorem insufficient_resources_rejected (m : Master) (dir : Direction)
    (c : Credential) (sid : ℕ) (ledger : AgentLedger) (delta : Resources)
    (hauth : authenticate m c = true)
    (hlook : lookupAgent m.agents sid = some ledger)
    (hval : validateResources delta = true)
    (hpm : dir = Direction.reserve → principalsMatch delta c.principal = true)
    (hacl : authorizedFor m.acls dir c.principal delta = true)
    (hinsuf : Resources.containsAll
      (Resources.add ledger.free (offeredPool ledger.offered))
      (needOf dir delta) = false) :
    processRequest m dir (some c)
        { slaveId := some sid, resources := some delta } =
      (Response.insufficientResources, m, []) ∧
    Response.httpStatus Response.insufficientResources = 409 := by
  have hsub : Resources.subtract
      (Resources.add ledger.free (offeredPool ledger.offered))
      (needOf dir delta) = none := by
    cases h2 : Resources.subtract
        (Resources.add ledger.free (offeredPool ledger.offered))
        (needOf dir delta) with
    | none => rfl
    | some x =>
      rw [Resources.containsAll, h2] at hinsuf
      simp at hinsuf
  have hpm2 : ¬ (dir = Direction.reserve ∧
      principalsMatch delta c.principal = false) := by
    rintro ⟨h1, h2⟩
    rw [hpm h1] at h2
    exact absurd h2 (by simp)
  refine ⟨?_, rfl⟩
  unfold processRequest
  simp [hauth, hlook, hval, hacl, hsub, hpm2]

/-- Witness for C3: Scenario B, reserving cpus:4;mem:4096 on an agent that
has only cpus:1;mem:512. -/
theorem insufficient_resources_rejected_witness :
    Resources.containsAll
        (Resources.add sampleLedger.free (offeredPool sampleLedger.offered))
        (needOf Direction.reserve bigDelta) = false ∧
    processRequest sampleMaster Direction.reserve (some sampleCred)
        { slaveId := some 0, resources := some bigDelta } =
      (Response.insufficientResources, sampleMaster, []) := by
  have h := insufficient_resources_rejected sampleMaster Direction.reserve
    sampleCred 0 sampleLedger bigDelta (by decide) (by decide) (by decide)
    (fun _ => by decide) (by decide) (by decide)
  exact ⟨by decide, h.1⟩

/-- C4: any request answered with a non-ok response — authentication,
authorization, structural validation or sufficiency failure — leaves the
manager state, hence every agent ledger, offer tracker and outstanding
offer, completely unchanged, and rescinds nothing. -/
theorem failed_request_no_mutation (m : Master) (dir : Direction)
    (cred : Option Credential) (req : Request) (resp : Response) (m2 : Master)
    (evs : List Event)
    (h : processRequest m dir cred req = (resp, m2, evs))
    (hne : resp ≠ Response.ok) :
    m2 = m ∧ evs = [] := by
  rcases processRequest_spec m dir cred req with ⟨r, heq, hr⟩ |
    ⟨c, sid, ledger, delta, rest, _, _, _, _, _, heq⟩
  · rw [h] at heq
    injection heq with h1 h2
    injection h2 with h3 h4
    exact ⟨h3, h4⟩
  · rw [h] at heq
    injection heq with h1 h2
    exact absurd h1 hne

/-- Witness for C4: an unauthenticated request leaves the sample manager
untouched. -/
theorem failed_request_no_mutation_witness :
    processRequest sampleMaster Direction.reserve none
        { slaveId := some 0, resources := some sampleDelta } =
      (Response.unauthenticated, sampleMaster, []) ∧
    sampleMaster = sampleMaster ∧ ([] : List Event) = [] := by
  have h := failed_request_no_mutation sampleMaster Direction.reserve none
    { slaveId := some 0, resources := some sampleDelta }
    Response.unauthenticated sampleMaster [] rfl (by decide)
  exact ⟨rfl, h⟩

/-- C5: a request whose credentials are missing or not in the credential
store fails with Unauthenticated (HTTP 401) whatever the rest of the request
contains — even an unparseable payload with no slaveId and no resources —
with no state change and no rescission; authentication precedes parsing,
validation and authorization. -/
theorem authentication_checked_first (m : Master) (dir : Direction)
    (cred : Option Credential) (req : Request)
    (h : ∀ c, cred = some c → authenticate m c = false) :
    processRequest m dir cred req = (Response.unauthenticated, m, []) ∧
    Response.httpStatus Response.unauthenticated = 401 := by
  refine ⟨?_, rfl⟩
  cases cred with
  | none => rfl
  | some c =>
    have hc := h c rfl
    unfold processRequest
    simp [hc]

/-- Witness for C5: bad credentials on a request that is otherwise also
malformed still answer Unauthenticated. -/
theorem authentication_checked_first_witness :
    processRequest sampleMaster Direction.unreserve
        (some { principal := "bad-principal", secret := "bad-secret" })
        { slaveId := none, resources := none } =
      (Response.unauthenticated, sampleMaster, []) := by
  have h := authentication_checked_first sampleMaster Direction.unreserve
    (some { principal := "bad-principal", secret := "bad-secret" })
    { slaveId := none, resources := none }
    (fun c hc => by cases hc; decide)
  exact h.1

/-- C6: unreserve authorization is evaluated over two principal dimensions —
the acting principal selects the rule, whose reserver-principals entity must
match every reserver principal being undone — and a denial returns
Unauthorized (HTTP 403, distinct from the 401 of Unauthenticated) with no
ledger effect, even when the acting principal is unreserving its own
reservation; conversely an ACL granting both dimensions lets reserve and
then unreserve each succeed. -/
theorem unreserve_acl_two_dimensions :
    (∀ (m : Master) (c : Credential) (sid : ℕ) (ledger : AgentLedger)
        (delta : Resources),
      authenticate m c = true →
      lookupAgent m.agents sid = some ledger →
      validateResources delta = true →
      authorizeUnreserve m.acls c.principal (reserverPrincipals delta) =
        false →
      processRequest m Direction.unreserve (some c)
          { slaveId := some sid, resources := some delta } =
        (Response.unauthorized, m, []) ∧
      Response.httpStatus Response.unauthorized = 403 ∧
      Response.httpStatus Response.unauthorized ≠
        Response.httpStatus Response.unauthenticated) ∧
    (∀ (m : Master) (c : Credential) (sid : ℕ) (ledger : AgentLedger)
        (F : Resources) (role : String),
      authenticate m c = true →
      lookupAgent m.agents sid = some ledger →
      ledger.free = F →
      ledger.offered = [] →
      Resources.allUnreserved F = true →
      List.Pairwise (fun a b => a.name ≠ b.name) F →
      F ≠ [] →
      c.principal ≠ "" →
      authorizeReserve m.acls c.principal
        ((Resources.flatten F role (some ⟨c.principal⟩)).map Resource.role) =
          true →
      authorizeUnreserve m.acls c.principal
        (reserverPrincipals (Resources.flatten F role (some ⟨c.principal⟩))) =
          true →
      ∃ m1 m2,
        processRequest m Direction.reserve (some c)
            { slaveId := some sid,
              resources :=
                some (Resources.flatten F role (some ⟨c.principal⟩)) } =
          (Response.ok, m1, []) ∧
        processRequest m1 Direction.unreserve (some c)
            { slaveId := some sid,
              resources :=
                some (Resources.flatten F role (some ⟨c.principal⟩)) } =
          (Response.ok, m2, [])) := by
  constructor
  · intro m c sid ledger delta hauth hlook hval hdeny
    refine ⟨?_, rfl, by decide⟩
    have hd : authorizedFor m.acls Direction.unreserve c.principal delta =
        false := hdeny
    unfold processRequest
    simp [hauth, hlook, hval, hd]
  · intro m c sid ledger F role hauth hlook hfree hoff hunres hnames hne hp
      hr hu
    obtain ⟨m1, m2, l2, h1, h2, _⟩ := roundtrip_states m c sid ledger F role
      hauth hlook hfree hoff hunres hnames hne hp hr hu
    exact ⟨m1, m2, h1, h2⟩

/-- Witness for C6: the BadUnreserveACL configuration denies the caller
unreserving its own reservation, and with permissive ACLs the reserve then
unreserve pair succeeds. -/
theorem unreserve_acl_two_dimensions_witness :
    authorizeUnreserve denyMaster.acls sampleCred.principal
        (reserverPrincipals sampleDelta) = false ∧
    processRequest denyMaster Direction.unreserve (some sampleCred)
        { slaveId := some 0, resources := some sampleDelta } =
      (Response.unauthorized, denyMaster, []) ∧
    (∃ m1 m2,
      processRequest sampleMaster Direction.reserve (some sampleCred)
          { slaveId := some 0,
            resources :=
              some (Resources.flatten [sampleCpus, sampleMem] "role"
                (some ⟨sampleCred.principal⟩)) } =
        (Response.ok, m1, []) ∧
      processRequest m1 Direction.unreserve (some sampleCred)
          { slaveId := some 0,
            resources :=
              some (Resources.flatten [sampleCpus, sampleMem] "role"
                (some ⟨sampleCred.principal⟩)) } =
        (Response.ok, m2, [])) := by
  have h1 := unreserve_acl_two_dimensions.1 denyMaster sampleCred 0
    sampleLedger sampleDelta (by decide) (by decide) (by decide) (by decide)
  have h2 := unreserve_acl_two_dimensions.2 sampleMaster sampleCred 0
    sampleLedger [sampleCpus, sampleMem] "role" (by decide) (by decide) rfl
    rfl (by decide) (by decide) (by decide) (by decide) (by decide)
    (by decide)
  exact ⟨by decide, h1.1, h2⟩

/-- C7: an authenticated request omitting the slaveId field, or naming a
known agent but omitting the resources field, is answered with
MalformedRequest (HTTP 400) on both endpoints, with no side effects. -/
theorem missing_field_bad_request (m : Master) (dir : Direction)
    (c : Credential) (hauth : authenticate m c = true) :
    (∀ req : Request, req.slaveId = none →
      processRequest m dir (some c) req =
        (Response.malformedRequest, m, [])) ∧
    (∀ (sid : ℕ) (ledger : AgentLedger),
      lookupAgent m.agents sid = some ledger →
      processRequest m dir (some c)
          { slaveId := some sid, resources := none } =
        (Response.malformedRequest, m, [])) ∧
    Response.httpStatus Response.malformedRequest = 400 := by
  refine ⟨?_, ?_, rfl⟩
  · intro req hs
    unfold processRequest
    simp [hauth, hs]
  · intro sid ledger hl
    unfold processRequest
    simp [hauth, hl]

/-- Witness for C7: Scenarios C and D on the sample manager, for both
endpoints. -/
theorem missing_field_bad_request_witness :
    authenticate sampleMaster sampleCred = true ∧
    processRequest sampleMaster Direction.reserve (some sampleCred)
        { slaveId := none, resources := some sampleDelta } =
      (Response.malformedRequest, sampleMaster, []) ∧
    processRequest sampleMaster Direction.unreserve (some sampleCred)
        { slaveId := some 0, resources := none } =
      (Response.malformedRequest, sampleMaster, []) := by
  have h1 := missing_field_bad_request sampleMaster Direction.reserve
    sampleCred (by decide)
  have h2 := missing_field_bad_request sampleMaster Direction.unreserve
    sampleCred (by decide)
  exact ⟨by decide, h1.1 _ rfl, h2.2.1 0 sampleLedger (by decide)⟩

/-- C8: a reserve request whose reservation tag principal differs from the
authenticated caller is answered with MalformedRequest (HTTP 400) under
every ACL configuration — the check is decided before authorization — and
with no ledger effect; the check belongs to reserve only: an otherwise
identical unreserve request is never answered with MalformedRequest. -/
theorem reserve_principal_mismatch_rejected (m : Master) (c : Credential)
    (sid : ℕ) (ledger : AgentLedger) (delta : Resources)
    (hauth : authenticate m c = true)
    (hlook : lookupAgent m.agents sid = some ledger)
    (hval : validateResources delta = true)
    (hmm : principalsMatch delta c.principal = false) :
    (∀ a : ACLs,
      processRequest { m with acls := a } Direction.reserve (some c)
          { slaveId := some sid, resources := some delta } =
        (Response.malformedRequest, { m with acls := a }, [])) ∧
    (processRequest m Direction.unreserve (some c)
        { slaveId := some sid, resources := some delta }).1 ≠
      Response.malformedRequest ∧
    Response.httpStatus Response.malformedRequest = 400 := by
  refine ⟨?_, ?_, rfl⟩
  · intro a
    have hauth2 : authenticate { m with acls := a } c = true := hauth
    have hlook2 : lookupAgent ({ m with acls := a }).agents sid =
        some ledger := hlook
    unfold processRequest
    simp [hauth2, hlook2, hval, hmm]
  · unfold processRequest
    simp [hauth, hlook, hval]
    split
    · simp
    · split
      · simp
      · simp

/-- Witness for C8: Scenario E, a reserve tagged with "badPrincipal" while
authenticating as "ops", under a non-trivial ACL configuration. -/
theorem reserve_principal_mismatch_rejected_witness :
    principalsMatch mismatchDelta sampleCred.principal = false ∧
    processRequest { sampleMaster with acls := denyUnreserveACLs }
        Direction.reserve (some sampleCred)
        { slaveId := some 0, resources := some mismatchDelta } =
      (Response.malformedRequest,
       { sampleMaster with acls := denyUnreserveACLs }, []) := by
  have h := reserve_principal_mismatch_rejected sampleMaster sampleCred 0
    sampleLedger mismatchDelta (by decide) (by decide) (by decide) (by decide)
  exact ⟨by decide, h.1 denyUnreserveACLs⟩

/-- C9: a successful reserve or unreserve on an agent rescinds every offer
outstanding on that agent at the time — all of them, each exactly once —
leaves the agent with an empty offer tracker, and in the event trace of any
continuation the rescission events precede every event of subsequently
processed operations, in particular any later offer issued on that agent's
resources. -/
theorem rescind_all_offers_before_mutation (m : Master) (dir : Direction)
    (cred : Option Credential) (req : Request) (sid : ℕ)
    (ledger : AgentLedger) (m1 : Master) (evs : List Event)
    (hsid : req.slaveId = some sid)
    (hlook : lookupAgent m.agents sid = some ledger)
    (hnodup : (ledger.offered.map Offer.offerId).Nodup)
    (hrun : processRequest m dir cred req = (Response.ok, m1, evs)) :
    evs = ledger.offered.map (fun o => Event.rescinded sid o.offerId) ∧
    (∀ o ∈ ledger.offered, evs.count (Event.rescinded sid o.offerId) = 1) ∧
    (∃ l1, lookupAgent m1.agents sid = some l1 ∧ l1.offered = []) ∧
    (∀ ops, runOps m (Op.request dir cred req :: ops) =
      ((runOps m1 ops).1, evs ++ (runOps m1 ops).2)) := by
  rcases processRequest_spec m dir cred req with ⟨r, heq, hr⟩ |
    ⟨c, sid2, ledger2, delta, rest, _, hsid2, _, hlook2, _, heq⟩
  · rw [heq] at hrun
    injection hrun with h1 h2
    exact absurd h1 hr
  · rw [hsid] at hsid2
    injection hsid2 with hs
    subst hs
    rw [hlook] at hlook2
    injection hlook2 with hl
    subst hl
    rw [heq] at hrun
    injection hrun with h1 h2
    injection h2 with h3 h4
    subst h3
    subst h4
    refine ⟨rfl, ?_, ?_, ?_⟩
    · intro o ho
      have hmap : ledger.offered.map (fun o => Event.rescinded sid o.offerId) =
          (ledger.offered.map Offer.offerId).map
            (fun i => Event.rescinded sid i) := by
        rw [List.map_map]
        rfl
      rw [hmap]
      have hinj : Function.Injective (fun i => Event.rescinded sid i) := by
        intro a b hab
        simpa using hab
      calc ((ledger.offered.map Offer.offerId).map
            (fun i => Event.rescinded sid i)).count
            (Event.rescinded sid o.offerId) =
          (ledger.offered.map Offer.offerId).count o.offerId :=
            List.count_map_of_injective _ _ hinj o.offerId
        _ = 1 := List.count_eq_one_of_mem hnodup
            (List.mem_map_of_mem Offer.offerId ho)
    · exact ⟨_, lookupAgent_update_self hlook _, rfl⟩
    · intro ops
      simp [runOps, applyOp, heq]

/-- Witness for C9: reserving the free ports range on an agent with one
outstanding offer rescinds exactly that offer and empties the tracker. -/
theorem rescind_all_offers_before_mutation_witness :
    (offerLedger.offered.map Offer.offerId).Nodup ∧
    (∃ m1 evs,
      processRequest offerMaster Direction.reserve (some sampleCred)
          { slaveId := some 0, resources := some reservePortsDelta } =
        (Response.ok, m1, evs) ∧
      evs = offerLedger.offered.map (fun o => Event.rescinded 0 o.offerId) ∧
      ∃ l1, lookupAgent m1.agents 0 = some l1 ∧ l1.offered = []) := by
  have hrun := processRequest_ok offerMaster Direction.reserve sampleCred 0
    offerLedger reservePortsDelta [sampleMem] (by decide) (by decide)
    (by decide) (fun _ => by decide) (by decide) (by decide)
  have h := rescind_all_offers_before_mutation offerMaster Direction.reserve
    (some sampleCred)
    { slaveId := some 0, resources := some reservePortsDelta } 0 offerLedger
    _ _ rfl (by decide) (by decide) hrun
  exact ⟨by decide, _, _, hrun, h.1, h.2.2.1⟩

/-- C10: for an agent whose free pool is an unreserved set F with no offer
outstanding (and no scheduler involved), reserving F flattened onto a role
for the caller succeeds with HTTP 200 and rescinds nothing — the rescission
step is vacuously satisfied — and unreserving the same set afterwards also
succeeds and restores the agent's free pool to exactly F, with total and
allocated untouched. -/
theorem reserve_unreserve_roundtrip_endpoint (m : Master) (c : Credential)
    (sid : ℕ) (ledger : AgentLedger) (F : Resources) (role : String)
    (hauth : authenticate m c = true)
    (hlook : lookupAgent m.agents sid = some ledger)
    (hfree : ledger.free = F)
    (hoff : ledger.offered = [])
    (hunres : Resources.allUnreserved F = true)
    (hnames : List.Pairwise (fun a b => a.name ≠ b.name) F)
    (hne : F ≠ [])
    (hp : c.principal ≠ "")
    (haclR : authorizeReserve m.acls c.principal
      ((Resources.flatten F role (some ⟨c.principal⟩)).map Resource.role) =
        true)
    (haclU : authorizeUnreserve m.acls c.principal
      (reserverPrincipals (Resources.flatten F role (some ⟨c.principal⟩))) =
        true) :
    ∃ m1 m2 l2,
      processRequest m Direction.reserve (some c)
          { slaveId := some sid,
            resources :=
              some (Resources.flatten F role (some ⟨c.principal⟩)) } =
        (Response.ok, m1, []) ∧
      Response.httpStatus Response.ok = 200 ∧
      processRequest m1 Direction.unreserve (some c)
          { slaveId := some sid,
            resources :=
              some (Resources.flatten F role (some ⟨c.principal⟩)) } =
        (Response.ok, m2, []) ∧
      lookupAgent m2.agents sid = some l2 ∧
      l2.free = F ∧ l2.offered = [] ∧ l2.total = ledger.total ∧
      l2.allocated = ledger.allocated := by
  obtain ⟨m1, m2, l2, h1, h2, h3, h4, h5, h6, h7⟩ := roundtrip_states m c sid
    ledger F role hauth hlook hfree hoff hunres hnames hne hp haclR haclU
  exact ⟨m1, m2, l2, h1, rfl, h2, h3, h4, h5, h6, h7⟩

/-- Witness for C10: the round trip on the sample agent holding unreserved
cpus:1;mem:512. -/
theorem reserve_unreserve_roundtrip_endpoint_witness :
    Resources.allUnreserved [sampleCpus, sampleMem] = true ∧
    (∃ m1 m2 l2,
      processRequest sampleMaster Direction.reserve (some sampleCred)
          { slaveId := some 0,
            resources := some (Resources.flatten [sampleCpus, sampleMem]
              "role" (some ⟨sampleCred.principal⟩)) } =
        (Response.ok, m1, []) ∧
      Response.httpStatus Response.ok = 200 ∧
      processRequest m1 Direction.unreserve (some sampleCred)
          { slaveId := some 0,
            resources := some (Resources.flatten [sampleCpus, sampleMem]
              "role" (some ⟨sampleCred.principal⟩)) } =
        (Response.ok, m2, []) ∧
      lookupAgent m2.agents 0 = some l2 ∧
      l2.free = [sampleCpus, sampleMem] ∧ l2.offered = [] ∧
      l2.total = sampleLedger.total ∧
      l2.allocated = sampleLedger.allocated) := by
  refine ⟨by decide, ?_⟩
  exact reserve_unreserve_roundtrip_endpoint sampleMaster sampleCred 0
    sampleLedger [sampleCpus, sampleMem] "role" (by decide) (by decide) rfl
    rfl (by decide) (by decide) (by decide) (by decide) (by decide)
    (by decide)

end MesosSpec
